import Mathlib

/-!
Verification of the `ollama-rename-img` pipeline (`ollama_rename_img/main.py`)
against its natural-language specification.

The Python program is embedded shallowly: pure string manipulation is
translated to executable Lean functions on `List Char` / `String`, the
filesystem and the external classifier are modelled by explicit inputs
(directory entry lists, a decode oracle, a per-file classifier outcome) and
an explicit event trace recording every side effect the program performs.
-/

set_option maxHeartbeats 1000000

/-- Embeds Python `str.lower()` (ASCII case folding, which covers every
string the program compares: extensions such as `.webp` / `.WEBP`). -/
def pyLower (s : String) : String := String.mk (s.data.map Char.toLower)

/-- Embeds Python `s.endswith(t)`. -/
def pyEndswith (s t : String) : Bool := decide (t.data <:+ s.data)

/-- Embeds Python `s.rfind(c)` for a one-character needle: the index of the
last occurrence of `c`, or `-1` when `c` does not occur. -/
def lastIdxOf (c : Char) : List Char → Int
  | [] => -1
  | a :: rest =>
    let r := lastIdxOf c rest
    if 0 ≤ r then r + 1
    else if a = c then 0 else -1

/-- Embeds `os.path.splitext(p)[0]` (CPython `genericpath._splitext` with
separator `/`): drop the final extension, where the extension starts at the
last dot of the last path component unless every character between the start
of that component and the dot is itself a dot. -/
def splitextBase (p : String) : String :=
  let cs := p.data
  let sepIndex := lastIdxOf '/' cs
  let dotIndex := lastIdxOf '.' cs
  if sepIndex < dotIndex then
    let between := (cs.take dotIndex.toNat).drop (sepIndex + 1).toNat
    if between.all (fun c => c = '.') then p
    else String.mk (cs.take dotIndex.toNat)
  else p

/-- Embeds `pathlib.PurePath.suffix` applied to a final path component
`name`: `name[i:]` for `i = name.rfind(".")` when `0 < i < len(name) - 1`,
otherwise the empty string. -/
def pathSuffix (name : String) : String :=
  let cs := name.data
  let i := lastIdxOf '.' cs
  if 0 < i ∧ i < (cs.length : Int) - 1 then String.mk (cs.drop i.toNat) else ""

/-- Embeds `pathlib.PurePath.stem` applied to a final path component. -/
def pathStem (name : String) : String :=
  let cs := name.data
  let i := lastIdxOf '.' cs
  if 0 < i ∧ i < (cs.length : Int) - 1 then String.mk (cs.take i.toNat) else name

/-- Embeds `any(char.isdigit() for char in keyword)` (ASCII digits). -/
def hasDigit (k : String) : Bool := k.data.any Char.isDigit

/-- Character-level replacement: every occurrence of `pat` is replaced by the
character list `rep`. -/
def replaceChars (pat : Char) (rep : List Char) : List Char → List Char
  | [] => []
  | c :: cs => (if c = pat then rep else [c]) ++ replaceChars pat rep cs

/-- Embeds Python `s.replace(pat, rep)` for the one-character pattern used by
the program (`keyword.replace(" ", delimiter)`). -/
def pyReplaceChar (pat : Char) (rep : String) (s : String) : String :=
  String.mk (replaceChars pat rep.data s.data)

/-- Embeds Python `d.join(l)`. -/
def pyJoin (d : String) : List String → String
  | [] => ""
  | [k] => k
  | k :: ks => k ++ d ++ pyJoin d ks

/-- Embeds the pydantic model `ImageClassification` of `main.py`. -/
structure ImageClassification where
  keywords : List String
deriving DecidableEq

/-- The intermediate `cleaned_keywords` list of
`ImageClassification.keywords_to_string_with_delimiter`: keywords containing
a digit are discarded, and internal spaces of the survivors are replaced by
the delimiter. -/
def cleaned_keywords (cl : ImageClassification) (delimiter : String) : List String :=
  (cl.keywords.filter (fun k => !hasDigit k)).map (pyReplaceChar ' ' delimiter)

/-- Embeds `ImageClassification.keywords_to_string_with_delimiter`
(`main.py` lines 18-41).  The Python method raises `ValueError` on an
unaccepted delimiter; this is embedded as `Except.error`. -/
def keywords_to_string_with_delimiter (cl : ImageClassification)
    (delimiter : String) : Except String String :=
  if delimiter ∉ ["_", "-", " "] then
    Except.error "Delimiter must be underscore, dash, or space"
  else
    Except.ok (pyJoin delimiter ((cleaned_keywords cl delimiter).take 5))

/-- The delimiter character of an accepted (one-character) delimiter
string. -/
def delimiterChar (d : String) : Char := d.data.headD ' '

/-- The claim of C7, as stated: the delimiter character occurs in the built
filename exactly between joined entries — `k - 1` occurrences for `k` joined
entries — and nowhere else. -/
def delimiterOnlyBetweenEntries (cl : ImageClassification) (d : String) : Prop :=
  ∀ s, keywords_to_string_with_delimiter cl d = Except.ok s →
    s.data.count (delimiterChar d) = ((cleaned_keywords cl d).take 5).length - 1

example : keywords_to_string_with_delimiter ⟨["sunset", "beach", "ocean2", "wave", "sky", "cloud"]⟩ "_" =
    Except.ok "sunset_beach_wave_sky_cloud" := by rfl

example : keywords_to_string_with_delimiter ⟨["a b"]⟩ "_" = Except.ok "a_b" := by rfl

example : keywords_to_string_with_delimiter ⟨[]⟩ "_" = Except.ok "" := by rfl

example : pathSuffix "photo.WEBP" = ".WEBP" := by decide

example : splitextBase "dir/photo.WEBP" = "dir/photo" := by decide

example : pathStem "photo.jpeg" = "photo" := by decide

/-- One side effect of the program.  Each constructor corresponds to one
operation in `main.py`: filesystem reads and writes, the classifier call, and
each individual logging statement. -/
inductive Event where
  /-- `dir_path.glob("*.webp")` (line 185). -/
  | dirGlob (pat : String)
  /-- `directory_path.iterdir()` (line 88). -/
  | dirIter
  /-- `Image.open(file_path)` (line 60). -/
  | fileOpened (p : String)
  /-- `img.convert("RGB").save(new_file_path, "JPEG")` (line 65). -/
  | fileCreated (p : String)
  /-- the `generate_keywords(file)` call: read the image and query the
  vision-language service (lines 95-109, invoked at line 123). -/
  | classifierCalled (p : String)
  /-- the `keywords_to_string_with_delimiter(delimiter)` call (line 132). -/
  | builderCalled (delim : String)
  /-- `file.rename(new_file_path)` (line 137). -/
  | renamed (src dst : String)
  /-- `webp_file.unlink()` (line 143). -/
  | deleted (p : String)
  /-- `logger.info("Found ... WebP files")` (line 186). -/
  | infoFound (n : Nat)
  /-- `logger.info("Converted ... files to JPEG")` (line 189). -/
  | infoConverted (n : Nat)
  /-- `logger.warning("No JPEG files to process. Exiting.")` (line 192). -/
  | warnNothingToProcess
  /-- `logger.info("Renamed ... to ...")` (line 138). -/
  | infoRenamed (old new : String)
  /-- `logger.info("Removed original WebP file: ...")` (line 145). -/
  | infoRemovedOriginal (p : String)
  /-- `logger.warning("No corresponding WebP file found for ...")`
  (line 147). -/
  | warnNoCorresponding (name : String)
  /-- `logger.error("Failed to parse JSON response for ...")` (line 150). -/
  | errJsonDecode (p : String)
  /-- `logger.error("Error processing ...")` (line 152). -/
  | errProcessing (p : String)
  /-- `logger.warning("Unprocessed WebP file: ...")` (line 156). -/
  | warnUnprocessed (p : String)
deriving DecidableEq

/-- An entry of the processed directory, as seen by
`directory_path.iterdir()`: its final-component name and whether it is a
regular file. -/
structure DirEntry where
  name : String
  isFile : Bool
deriving DecidableEq

/-- A `pathlib.Path` value: the path string. -/
structure PPath where
  path : String
deriving DecidableEq

/-- `pathlib.Path.name`: the part of the path after the last slash. -/
def PPath.name (p : PPath) : String :=
  String.mk ((p.path.data.reverse.takeWhile (fun c => c ≠ '/')).reverse)

/-- `pathlib.Path.stem` of the path. -/
def PPath.stem (p : PPath) : String := pathStem p.name

/-- `pathlib.Path.suffix` of the path. -/
def PPath.suffix (p : PPath) : String := pathSuffix p.name

/-- Whether the glob pattern `*.webp` (line 185) matches a directory entry
name.  `pathlib` globbing is case-sensitive on the POSIX systems this tool
targets, and `*` does not match names starting with a dot. -/
def globMatchesWebp (name : String) : Bool :=
  decide (name.data.head? ≠ some '.' ∧ ".webp".data <:+ name.data)

/-- The `webp_files` list built at line 185:
`list(dir_path.glob("*.webp"))`. -/
def webpGlob (directory_path : String) (entries : List DirEntry) : List PPath :=
  (entries.filter (fun e => globMatchesWebp e.name)).map
    (fun e => PPath.mk (directory_path ++ "/" ++ e.name))

/-- Embeds `convert_webp_to_jpeg` (lines 44-69).  `decodes` is the oracle
telling which paths `PIL.Image.open` accepts; a decode failure raises
`IOError`, caught at line 68.  Returns the Python return value (a path on
success, an error-message string otherwise) together with the side effects
performed. -/
def convert_webp_to_jpeg (decodes : String → Bool) (file_path : String) :
    String × List Event :=
  if !pyEndswith (pyLower file_path) ".webp" then
    ("The file is not a WebP image based on its extension.", [])
  else if decodes file_path then
    let new_file_path := splitextBase file_path ++ ".jpeg"
    (new_file_path, [Event.fileOpened file_path, Event.fileCreated new_file_path])
  else
    ("Failed to open or process the file. Please ensure it is a valid WebP image.",
     [Event.fileOpened file_path])

/-- The `for file in directory_path.iterdir()` loop of
`convert_files_to_jpeg` (lines 87-92), accumulating `converted_list` and the
side effects. -/
def convert_files_loop (decodes : String → Bool) (directory_path : String) :
    List DirEntry → List PPath × List Event
  | [] => ([], [])
  | e :: rest =>
    if e.isFile && (pyLower (pathSuffix e.name) == ".webp") then
      let conv := convert_webp_to_jpeg decodes (directory_path ++ "/" ++ e.name)
      let r := convert_files_loop decodes directory_path rest
      (PPath.mk conv.1 :: r.1, conv.2 ++ r.2)
    else convert_files_loop decodes directory_path rest

/-- Embeds `convert_files_to_jpeg` (lines 86-92). -/
def convert_files_to_jpeg (decodes : String → Bool) (directory_path : String)
    (entries : List DirEntry) : List PPath × List Event :=
  let r := convert_files_loop decodes directory_path entries
  (r.1, Event.dirIter :: r.2)

/-- Outcome of lines 123-131 for one file: the classifier call, code-fence
stripping, `json.loads`, and the pydantic validation.  These steps involve
the external service and libraries, so their outcome is an input of the
embedding: a parsed `ImageClassification`, a `json.JSONDecodeError`, or any
other exception (service failure, unreadable file, schema mismatch). -/
inductive ParseOutcome where
  | parsed (cl : ImageClassification)
  | jsonError
  | otherError
deriving DecidableEq

/-- Embeds one iteration of the `for file in converted_files` loop of
`process_image` (lines 118-152): the `.DS_Store` skip, the try block, and the
two exception handlers.  Returns the updated `webp_files` list and the side
effects of this iteration. -/
def processOneFile (directory_path : String) (file : PPath)
    (webp_files : List PPath) (oc : ParseOutcome) (delimiter : String) :
    List PPath × List Event :=
  if file.name = ".DS_Store" then (webp_files, [])
  else
    match oc with
    | ParseOutcome.jsonError =>
      (webp_files, [Event.classifierCalled file.path, Event.errJsonDecode file.path])
    | ParseOutcome.otherError =>
      (webp_files, [Event.classifierCalled file.path, Event.errProcessing file.path])
    | ParseOutcome.parsed cl =>
      match keywords_to_string_with_delimiter cl delimiter with
      | Except.error _ =>
        (webp_files,
         [Event.classifierCalled file.path, Event.builderCalled delimiter,
          Event.errProcessing file.path])
      | Except.ok new_file_name =>
        let new_file_path := directory_path ++ "/" ++ (new_file_name ++ file.suffix)
        let renameEvs :=
          [Event.classifierCalled file.path, Event.builderCalled delimiter,
           Event.renamed file.path new_file_path,
           Event.infoRenamed file.name (PPath.name (PPath.mk new_file_path))]
        match webp_files.find? (fun w => w.stem == file.stem) with
        | some webp_file =>
          (webp_files.erase webp_file,
           renameEvs ++ [Event.deleted webp_file.path,
                         Event.infoRemovedOriginal webp_file.path])
        | none =>
          (webp_files, renameEvs ++ [Event.warnNoCorresponding file.name])

/-- The `for file in converted_files` loop of `process_image`, threading the
mutable `webp_files` list through the iterations. -/
def process_image_loop (directory_path : String) (files : List PPath)
    (webp_files : List PPath) (oc : PPath → ParseOutcome) (delimiter : String) :
    List PPath × List Event :=
  match files with
  | [] => (webp_files, [])
  | f :: rest =>
    let r1 := processOneFile directory_path f webp_files (oc f) delimiter
    let r2 := process_image_loop directory_path rest r1.1 oc delimiter
    (r2.1, r1.2 ++ r2.2)

/-- Embeds `process_image` (lines 112-156): the per-file loop followed by the
final report of remaining WebP files. -/
def process_image (directory_path : String) (converted_files : List PPath)
    (webp_files : List PPath) (oc : PPath → ParseOutcome) (delimiter : String) :
    List PPath × List Event :=
  let r := process_image_loop directory_path converted_files webp_files oc delimiter
  (r.1, r.2 ++ r.1.map (fun p => Event.warnUnprocessed p.path))

/-- Result of the `process_dir` command: rejected by CLI validation
(`typer.BadParameter`, line 180) or completed. -/
inductive CliResult where
  | badParam (msg : String)
  | done
deriving DecidableEq

/-- Embeds the `process_dir` command (lines 159-195): delimiter validation,
the `*.webp` glob, format conversion, the early exit when nothing was
converted, and the per-image processing. -/
def process_dir (decodes : String → Bool) (oc : PPath → ParseOutcome)
    (directory_path : String) (entries : List DirEntry) (delimiter : String) :
    CliResult × List Event :=
  if delimiter ∉ ["_", "-", " "] then
    (CliResult.badParam "Delimiter must be underscore, dash, or space.", [])
  else
    let webp_files := webpGlob directory_path entries
    let conv := convert_files_to_jpeg decodes directory_path entries
    let ev0 := Event.dirGlob "*.webp" :: Event.infoFound webp_files.length ::
      conv.2 ++ [Event.infoConverted conv.1.length]
    if conv.1 = [] then
      (CliResult.done, ev0 ++ [Event.warnNothingToProcess])
    else
      let r := process_image directory_path conv.1 webp_files oc delimiter
      (CliResult.done, ev0 ++ r.2)

example :
    convert_files_to_jpeg (fun _ => false) "dir" [DirEntry.mk "bad.webp" true] =
      ([PPath.mk "Failed to open or process the file. Please ensure it is a valid WebP image."],
       [Event.dirIter, Event.fileOpened "dir/bad.webp"]) := by decide

example :
    processOneFile "dir" (PPath.mk "dir/photo.jpeg") []
        (ParseOutcome.parsed ⟨[]⟩) "_" =
      ([], [Event.classifierCalled "dir/photo.jpeg", Event.builderCalled "_",
            Event.renamed "dir/photo.jpeg" "dir/.jpeg",
            Event.infoRenamed "photo.jpeg" ".jpeg",
            Event.warnNoCorresponding "photo.jpeg"]) := by decide

example :
    processOneFile "dir" (PPath.mk "dir/photo.jpeg") [PPath.mk "dir/photo.webp"]
        (ParseOutcome.parsed ⟨["cat", "hat"]⟩) "_" =
      ([], [Event.classifierCalled "dir/photo.jpeg", Event.builderCalled "_",
            Event.renamed "dir/photo.jpeg" "dir/cat_hat.jpeg",
            Event.infoRenamed "photo.jpeg" "cat_hat.jpeg",
            Event.deleted "dir/photo.webp",
            Event.infoRemovedOriginal "dir/photo.webp"]) := by decide

theorem hasDigit_eq_false_iff (k : String) :
    hasDigit k = false ↔ ∀ c ∈ k.data, ¬ c.isDigit := by
  simp [hasDigit]

theorem mem_replaceChars {pat : Char} {rep cs : List Char} {c : Char}
    (h : c ∈ replaceChars pat rep cs) : c ∈ rep ∨ c ∈ cs := by
  induction cs with
  | nil => simp [replaceChars] at h
  | cons a tl ih =>
    simp only [replaceChars, List.mem_append] at h
    rcases h with h | h
    · split at h
      · exact Or.inl h
      · simp only [List.mem_singleton] at h
        exact Or.inr (by simp [h])
    · rcases ih h with h' | h'
      · exact Or.inl h'
      · exact Or.inr (List.mem_cons_of_mem _ h')

theorem replaceChars_of_not_mem {pat : Char} {rep : List Char} {cs : List Char}
    (h : pat ∉ cs) : replaceChars pat rep cs = cs := by
  induction cs with
  | nil => rfl
  | cons a tl ih =>
    simp only [List.mem_cons, not_or] at h
    have hne : ¬ (a = pat) := fun hc => h.1 hc.symm
    simp only [replaceChars, if_neg hne, ih h.2, List.singleton_append]

theorem noDigit_pyJoin {d : String} {l : List String}
    (hd : ∀ c ∈ d.data, ¬ c.isDigit)
    (hl : ∀ k ∈ l, ∀ c ∈ k.data, ¬ c.isDigit) :
    ∀ c ∈ (pyJoin d l).data, ¬ c.isDigit := by
  induction l with
  | nil => intro c hc; exact absurd hc (by simp [pyJoin])
  | cons k tl ih =>
    cases tl with
    | nil => intro c hc; exact hl k (List.mem_cons_self _ _) c hc
    | cons k' tl' =>
      intro c hc
      have he : (pyJoin d (k :: k' :: tl')).data =
          k.data ++ d.data ++ (pyJoin d (k' :: tl')).data := by
        show (k ++ d ++ pyJoin d (k' :: tl')).data = _
        rw [String.data_append, String.data_append]
      rw [he] at hc
      simp only [List.mem_append] at hc
      rcases hc with (hc | hc) | hc
      · exact hl k (List.mem_cons_self _ _) c hc
      · exact hd c hc
      · exact ih (fun x hx => hl x (List.mem_cons_of_mem _ hx)) c hc

theorem count_pyJoin_of_entries {c : Char} {d : String} (hd : d.data = [c])
    {l : List String} (hl : ∀ k ∈ l, k.data.count c = 0) :
    (pyJoin d l).data.count c = l.length - 1 := by
  induction l with
  | nil => simp [pyJoin]
  | cons k tl ih =>
    cases tl with
    | nil =>
      show k.data.count c = 1 - 1
      rw [hl k (List.mem_cons_self _ _)]
    | cons k' tl' =>
      have he : (pyJoin d (k :: k' :: tl')).data =
          k.data ++ d.data ++ (pyJoin d (k' :: tl')).data := by
        show (k ++ d ++ pyJoin d (k' :: tl')).data = _
        rw [String.data_append, String.data_append]
      rw [he, List.count_append, List.count_append,
        hl k (List.mem_cons_self _ _), hd,
        ih (fun x hx => hl x (List.mem_cons_of_mem _ hx))]
      simp only [List.length_cons, List.count_cons, List.count_nil,
        beq_self_eq_true, if_true]
      omega

theorem delimiter_data_eq {d : String} (hd : d ∈ ["_", "-", " "]) :
    d.data = [delimiterChar d] := by
  simp only [List.mem_cons, List.mem_singleton, List.not_mem_nil, or_false] at hd
  rcases hd with h | h | h <;> subst h <;> rfl

theorem delimiter_noDigit {d : String} (hd : d ∈ ["_", "-", " "]) :
    ∀ c ∈ d.data, ¬ c.isDigit := by
  simp only [List.mem_cons, List.mem_singleton, List.not_mem_nil, or_false] at hd
  rcases hd with h | h | h <;> subst h <;> decide

theorem cleaned_keywords_noDigit {cl : ImageClassification} {d : String}
    (hd : d ∈ ["_", "-", " "]) :
    ∀ k ∈ cleaned_keywords cl d, ∀ c ∈ k.data, ¬ c.isDigit := by
  intro k hk c hc
  simp only [cleaned_keywords, List.mem_map, List.mem_filter] at hk
  obtain ⟨k0, ⟨_, hk0d⟩, rfl⟩ := hk
  have hnd : ∀ x ∈ k0.data, ¬ x.isDigit := by
    rw [← hasDigit_eq_false_iff]
    simp at hk0d
    exact hk0d
  rcases mem_replaceChars hc with h | h
  · exact delimiter_noDigit hd c h
  · exact hnd c h

/-- C1: for every keyword list and accepted delimiter, the filename builder
succeeds and returns the join, by the delimiter, of the first 5 keywords that
survive the digit filter (in their original order, internal spaces replaced
by the delimiter); at most 5 entries are joined, no joined entry contains a
digit, and consequently the whole result string is digit-free. -/
theorem C1_sanitization (cl : ImageClassification) (d : String)
    (hd : d ∈ ["_", "-", " "]) :
    ∃ s, keywords_to_string_with_delimiter cl d = Except.ok s ∧
      s = pyJoin d ((cleaned_keywords cl d).take 5) ∧
      cleaned_keywords cl d =
        (cl.keywords.filter (fun k => !hasDigit k)).map (pyReplaceChar ' ' d) ∧
      ((cleaned_keywords cl d).take 5).length ≤ 5 ∧
      (∀ k ∈ (cleaned_keywords cl d).take 5, ∀ c ∈ k.data, ¬ c.isDigit) ∧
      (∀ c ∈ s.data, ¬ c.isDigit) := by
  refine ⟨pyJoin d ((cleaned_keywords cl d).take 5), ?_, rfl, rfl, ?_, ?_, ?_⟩
  · simp [keywords_to_string_with_delimiter, hd]
  · exact List.length_take_le 5 (cleaned_keywords cl d)
  · intro k hk
    exact cleaned_keywords_noDigit hd k (List.take_subset 5 _ hk)
  · exact noDigit_pyJoin (delimiter_noDigit hd)
      (fun k hk => cleaned_keywords_noDigit hd k (List.take_subset 5 _ hk))

/-- Witness for C1 at the keyword list of spec Scenario A and delimiter
underscore. -/
theorem C1_sanitization_witness :
    ∃ s, keywords_to_string_with_delimiter
        ⟨["sunset", "beach", "ocean2", "wave", "sky", "cloud"]⟩ "_" =
          Except.ok s ∧
      s = pyJoin "_" ((cleaned_keywords
        ⟨["sunset", "beach", "ocean2", "wave", "sky", "cloud"]⟩ "_").take 5) ∧
      cleaned_keywords ⟨["sunset", "beach", "ocean2", "wave", "sky", "cloud"]⟩ "_" =
        ((ImageClassification.mk ["sunset", "beach", "ocean2", "wave", "sky", "cloud"]).keywords.filter
          (fun k => !hasDigit k)).map (pyReplaceChar ' ' "_") ∧
      ((cleaned_keywords ⟨["sunset", "beach", "ocean2", "wave", "sky", "cloud"]⟩ "_").take 5).length ≤ 5 ∧
      (∀ k ∈ (cleaned_keywords ⟨["sunset", "beach", "ocean2", "wave", "sky", "cloud"]⟩ "_").take 5,
        ∀ c ∈ k.data, ¬ c.isDigit) ∧
      (∀ c ∈ s.data, ¬ c.isDigit) :=
  C1_sanitization ⟨["sunset", "beach", "ocean2", "wave", "sky", "cloud"]⟩ "_" (by decide)

/-- C7 as stated is false: with keyword list `["a b"]` and delimiter `_`, the
built name is `a_b`, whose single joined entry contains the delimiter
character even though zero between-entry delimiters are required. -/
theorem C7_counterexample : ¬ delimiterOnlyBetweenEntries ⟨["a b"]⟩ "_" := by
  intro h
  exact absurd (h "a_b" rfl) (by decide)

/-- C7 amended: for every accepted delimiter, and every keyword list whose
surviving (digit-free) keywords contain neither a space nor the delimiter
character, the delimiter occurs in the built filename exactly between joined
entries — `k - 1` occurrences for `k` joined entries — and nowhere else. -/
theorem C7_amended (cl : ImageClassification) (d : String)
    (hd : d ∈ ["_", "-", " "])
    (hclean : ∀ k ∈ cl.keywords, hasDigit k = false →
      ' ' ∉ k.data ∧ delimiterChar d ∉ k.data) :
    ∃ s, keywords_to_string_with_delimiter cl d = Except.ok s ∧
      s.data.count (delimiterChar d) = ((cleaned_keywords cl d).take 5).length - 1 := by
  refine ⟨pyJoin d ((cleaned_keywords cl d).take 5), ?_, ?_⟩
  · simp [keywords_to_string_with_delimiter, hd]
  · rw [count_pyJoin_of_entries (delimiter_data_eq hd), List.length_take]
    intro k hk
    have hk' := List.take_subset 5 _ hk
    simp only [cleaned_keywords, List.mem_map, List.mem_filter] at hk'
    obtain ⟨k0, ⟨_, hk0d⟩, rfl⟩ := hk'
    have hfree := hclean k0 (by assumption) (by simpa using hk0d)
    show (pyReplaceChar ' ' d k0).data.count (delimiterChar d) = 0
    rw [pyReplaceChar, replaceChars_of_not_mem hfree.1]
    exact List.count_eq_zero.mpr hfree.2

/-- Witness for the amended C7 at keyword list `["cat", "dog"]`, delimiter
underscore. -/
theorem C7_amended_witness :
    ∃ s, keywords_to_string_with_delimiter ⟨["cat", "dog"]⟩ "_" = Except.ok s ∧
      s.data.count (delimiterChar "_") =
        ((cleaned_keywords ⟨["cat", "dog"]⟩ "_").take 5).length - 1 :=
  C7_amended ⟨["cat", "dog"]⟩ "_" (by decide) (by decide)

/-- C2 exhibits a code bug: with an empty keyword array the derived name is
the empty string, yet the per-file processing still performs the rename — the
converted file `dir/photo.jpeg` is renamed to `dir/.jpeg`, a filename
consisting of the extension alone, contradicting the requirement that no
rename happen on an empty derived name. -/
theorem C2_empty_keywords_still_renamed :
    processOneFile "dir" (PPath.mk "dir/photo.jpeg") []
        (ParseOutcome.parsed ⟨[]⟩) "_" =
      ([], [Event.classifierCalled "dir/photo.jpeg", Event.builderCalled "_",
            Event.renamed "dir/photo.jpeg" "dir/.jpeg",
            Event.infoRenamed "photo.jpeg" ".jpeg",
            Event.warnNoCorresponding "photo.jpeg"]) := by decide

/-- C3 exhibits a code bug: a legacy-format file that cannot be decoded
creates no output file, but `convert_files_to_jpeg` still appends an element
for it to the returned list — the error-message string of
`convert_webp_to_jpeg` wrapped as a path — so not every element of the
returned list is the path of a newly created JPEG file. -/
theorem C3_failed_decode_contributes_error_message_path :
    convert_files_to_jpeg (fun _ => false) "dir" [DirEntry.mk "bad.webp" true] =
      ([PPath.mk "Failed to open or process the file. Please ensure it is a valid WebP image."],
       [Event.dirIter, Event.fileOpened "dir/bad.webp"]) := by decide

/-- C4: for every per-file processing step whose classifier outcome parses
and whose keyword sanitization succeeds with derived name `nm`, the converted
file is renamed to `{directory}/{nm}{original extension}`; when the tracked
legacy list holds a file with the converted file's stem, the first such file
is deleted and removed from the tracked list (and a stem match always yields
such a first file). -/
theorem C4_rename_and_cleanup (directory_path : String) (file : PPath)
    (webp_files : List PPath) (cl : ImageClassification) (d nm : String)
    (hds : file.name ≠ ".DS_Store")
    (hok : keywords_to_string_with_delimiter cl d = Except.ok nm) :
    Event.renamed file.path (directory_path ++ "/" ++ (nm ++ file.suffix)) ∈
      (processOneFile directory_path file webp_files (ParseOutcome.parsed cl) d).2 ∧
    (∀ w, webp_files.find? (fun x => x.stem == file.stem) = some w →
      (processOneFile directory_path file webp_files (ParseOutcome.parsed cl) d).1 =
        webp_files.erase w ∧
      Event.deleted w.path ∈
        (processOneFile directory_path file webp_files (ParseOutcome.parsed cl) d).2) ∧
    ((∃ w ∈ webp_files, w.stem = file.stem) →
      ∃ w, webp_files.find? (fun x => x.stem == file.stem) = some w ∧
        w.stem = file.stem) := by
  refine ⟨?_, ?_, ?_⟩
  · simp only [processOneFile, if_neg hds, hok]
    cases hfind : webp_files.find? (fun x => x.stem == file.stem) <;> simp
  · intro w hfind
    simp only [processOneFile, if_neg hds, hok, hfind]
    simp
  · rintro ⟨w, hw, hstem⟩
    have hsome : (webp_files.find? (fun x => x.stem == file.stem)).isSome :=
      List.find?_isSome.mpr ⟨w, hw, by simp [hstem]⟩
    obtain ⟨w', hw'⟩ := Option.isSome_iff_exists.mp hsome
    refine ⟨w', hw', ?_⟩
    have := List.find?_some hw'
    simpa using this

/-- Witness for C4: converted file `d/photo.jpeg`, tracked legacy file
`d/photo.webp`, keywords `["cat"]`, delimiter underscore. -/
theorem C4_rename_and_cleanup_witness :
    Event.renamed (PPath.mk "d/photo.jpeg").path
        ("d" ++ "/" ++ ("cat" ++ (PPath.mk "d/photo.jpeg").suffix)) ∈
      (processOneFile "d" (PPath.mk "d/photo.jpeg") [PPath.mk "d/photo.webp"]
        (ParseOutcome.parsed ⟨["cat"]⟩) "_").2 ∧
    (∀ w, [PPath.mk "d/photo.webp"].find?
        (fun x => x.stem == (PPath.mk "d/photo.jpeg").stem) = some w →
      (processOneFile "d" (PPath.mk "d/photo.jpeg") [PPath.mk "d/photo.webp"]
        (ParseOutcome.parsed ⟨["cat"]⟩) "_").1 =
        [PPath.mk "d/photo.webp"].erase w ∧
      Event.deleted w.path ∈
        (processOneFile "d" (PPath.mk "d/photo.jpeg") [PPath.mk "d/photo.webp"]
          (ParseOutcome.parsed ⟨["cat"]⟩) "_").2) ∧
    ((∃ w ∈ [PPath.mk "d/photo.webp"], w.stem = (PPath.mk "d/photo.jpeg").stem) →
      ∃ w, [PPath.mk "d/photo.webp"].find?
          (fun x => x.stem == (PPath.mk "d/photo.jpeg").stem) = some w ∧
        w.stem = (PPath.mk "d/photo.jpeg").stem) :=
  C4_rename_and_cleanup "d" (PPath.mk "d/photo.jpeg") [PPath.mk "d/photo.webp"]
    ⟨["cat"]⟩ "_" "cat" (by decide) (by rfl)

theorem processOneFile_webp_sublist (directory_path : String) (f : PPath)
    (w : List PPath) (oc : ParseOutcome) (d : String) :
    List.Sublist (processOneFile directory_path f w oc d).1 w := by
  unfold processOneFile
  split
  · exact List.Sublist.refl w
  · split
    · exact List.Sublist.refl w
    · exact List.Sublist.refl w
    · split
      · exact List.Sublist.refl w
      · split
        · exact List.erase_sublist _ w
        · exact List.Sublist.refl w

theorem process_image_loop_webp_sublist (directory_path : String)
    (fs : List PPath) (w : List PPath) (oc : PPath → ParseOutcome) (d : String) :
    List.Sublist (process_image_loop directory_path fs w oc d).1 w := by
  induction fs generalizing w with
  | nil => exact List.Sublist.refl w
  | cons f rest ih =>
    exact List.Sublist.trans
      (ih ((processOneFile directory_path f w (oc f) d).1))
      (processOneFile_webp_sublist directory_path f w (oc f) d)

theorem processOneFile_deleted_spec {directory_path : String} {f : PPath}
    {w : List PPath} {oc : ParseOutcome} {d : String} {q : String}
    (h : Event.deleted q ∈ (processOneFile directory_path f w oc d).2) :
    ∃ w0 ∈ w, w0.path = q ∧
      (processOneFile directory_path f w oc d).1 = w.erase w0 := by
  revert h
  unfold processOneFile
  split
  · intro h; simp at h
  · split
    · intro h; simp at h
    · intro h; simp at h
    · split
      · intro h; simp at h
      · split
        · next w0 hf =>
          intro h
          simp only [List.mem_append, List.mem_cons, List.not_mem_nil,
            or_false] at h
          refine ⟨w0, List.mem_of_find?_eq_some hf, ?_, rfl⟩
          rcases h with (h | h | h | h) | (h | h)
          · exact absurd h (by simp)
          · exact absurd h (by simp)
          · exact absurd h (by simp)
          · exact absurd h (by simp)
          · simp only [Event.deleted.injEq] at h
            exact h.symm
          · exact absurd h (by simp)
        · intro h
          simp only [List.mem_append, List.mem_cons, List.not_mem_nil,
            or_false] at h
          rcases h with (((h | h) | h) | h) | h <;> exact absurd h (by simp)

theorem processOneFile_no_warnUnprocessed (directory_path : String) (f : PPath)
    (w : List PPath) (oc : ParseOutcome) (d : String) (q : String) :
    Event.warnUnprocessed q ∉ (processOneFile directory_path f w oc d).2 := by
  unfold processOneFile
  split
  · simp
  · split
    · simp
    · simp
    · split
      · simp
      · split
        · simp
        · simp

theorem process_image_loop_no_warnUnprocessed (directory_path : String)
    (fs : List PPath) (w : List PPath) (oc : PPath → ParseOutcome) (d : String)
    (q : String) :
    Event.warnUnprocessed q ∉ (process_image_loop directory_path fs w oc d).2 := by
  induction fs generalizing w with
  | nil => simp [process_image_loop]
  | cons f rest ih =>
    intro h
    simp only [process_image_loop, List.mem_append] at h
    rcases h with h | h
    · exact processOneFile_no_warnUnprocessed directory_path f w (oc f) d q h
    · exact ih ((processOneFile directory_path f w (oc f) d).1) h

theorem process_image_loop_deleted_spec {directory_path : String}
    {fs : List PPath} {w : List PPath} {oc : PPath → ParseOutcome} {d : String}
    {q : String}
    (h : Event.deleted q ∈ (process_image_loop directory_path fs w oc d).2) :
    ∃ w0 ∈ w, w0.path = q := by
  induction fs generalizing w with
  | nil => simp [process_image_loop] at h
  | cons f rest ih =>
    simp only [process_image_loop, List.mem_append] at h
    rcases h with h | h
    · obtain ⟨w0, hw0, hq, _⟩ := processOneFile_deleted_spec h
      exact ⟨w0, hw0, hq⟩
    · obtain ⟨w0, hw0, hq⟩ := ih h
      exact ⟨w0,
        (processOneFile_webp_sublist directory_path f w (oc f) d).subset hw0, hq⟩

theorem process_image_loop_no_delete_of_final_mem {directory_path : String}
    {fs : List PPath} {w : List PPath} {oc : PPath → ParseOutcome} {d : String}
    (hn : w.Nodup) :
    ∀ p ∈ (process_image_loop directory_path fs w oc d).1,
      Event.deleted p.path ∉ (process_image_loop directory_path fs w oc d).2 := by
  induction fs generalizing w with
  | nil => intro p _ h; simp [process_image_loop] at h
  | cons f rest ih =>
    intro p hp h
    have hn1 : ((processOneFile directory_path f w (oc f) d).1).Nodup :=
      hn.sublist (processOneFile_webp_sublist directory_path f w (oc f) d)
    simp only [process_image_loop, List.mem_append] at h
    rcases h with h | h
    · obtain ⟨w0, hw0, hq, hres⟩ := processOneFile_deleted_spec h
      have hp' : p ∈ (processOneFile directory_path f w (oc f) d).1 :=
        (process_image_loop_webp_sublist directory_path rest _ oc d).subset hp
      rw [hres] at hp'
      have hpe : p ≠ w0 := (hn.mem_erase_iff.mp hp').1
      apply hpe
      cases p; cases w0
      simpa using hq.symm
    · exact ih hn1 p hp h

theorem process_image_loop_append (directory_path : String) (xs ys : List PPath)
    (w : List PPath) (oc : PPath → ParseOutcome) (d : String) :
    process_image_loop directory_path (xs ++ ys) w oc d =
      ((process_image_loop directory_path ys
          (process_image_loop directory_path xs w oc d).1 oc d).1,
       (process_image_loop directory_path xs w oc d).2 ++
         (process_image_loop directory_path ys
           (process_image_loop directory_path xs w oc d).1 oc d).2) := by
  induction xs generalizing w with
  | nil => simp [process_image_loop]
  | cons x xs ih =>
    simp only [List.cons_append, process_image_loop, List.append_eq]
    rw [ih]
    simp [List.append_assoc]

/-- C5: a per-file failure is local.  (1) A file whose classifier outcome is a
JSON decode error or any other exception produces exactly one classifier call
and one error log: no rename, no delete, and the tracked legacy list is
unchanged.  (2) In a batch `fs1 ++ f :: fs2` where `f` fails, the files
before and after `f` are processed exactly as if `f` had only logged its
failure — the batch never aborts.  (3) After the whole batch, every legacy
file remaining in the tracked list is reported as unprocessed and is never
the target of a delete. -/
theorem C5_failures_are_local_and_residuals_reported (directory_path : String)
    (f : PPath) (fs1 fs2 : List PPath) (w : List PPath)
    (oc : PPath → ParseOutcome) (d : String)
    (hds : f.name ≠ ".DS_Store")
    (herr : oc f = ParseOutcome.jsonError ∨ oc f = ParseOutcome.otherError)
    (hn : w.Nodup) :
    (processOneFile directory_path f w (oc f) d =
        (w, [Event.classifierCalled f.path, Event.errJsonDecode f.path]) ∨
     processOneFile directory_path f w (oc f) d =
        (w, [Event.classifierCalled f.path, Event.errProcessing f.path])) ∧
    process_image_loop directory_path (fs1 ++ f :: fs2) w oc d =
      ((process_image_loop directory_path fs2
          (process_image_loop directory_path fs1 w oc d).1 oc d).1,
       (process_image_loop directory_path fs1 w oc d).2 ++
         ((processOneFile directory_path f
             (process_image_loop directory_path fs1 w oc d).1 (oc f) d).2 ++
          (process_image_loop directory_path fs2
            (process_image_loop directory_path fs1 w oc d).1 oc d).2)) ∧
    (∀ p ∈ (process_image directory_path (fs1 ++ f :: fs2) w oc d).1,
       Event.warnUnprocessed p.path ∈
         (process_image directory_path (fs1 ++ f :: fs2) w oc d).2 ∧
       Event.deleted p.path ∉
         (process_image directory_path (fs1 ++ f :: fs2) w oc d).2) := by
  have hstep : ∀ w' : List PPath,
      processOneFile directory_path f w' (oc f) d =
        (w', [Event.classifierCalled f.path, Event.errJsonDecode f.path]) ∨
      processOneFile directory_path f w' (oc f) d =
        (w', [Event.classifierCalled f.path, Event.errProcessing f.path]) := by
    intro w'
    rcases herr with h | h <;> rw [h] <;> simp [processOneFile, if_neg hds]
  refine ⟨hstep w, ?_, ?_⟩
  · rw [process_image_loop_append]
    have hmid : process_image_loop directory_path (f :: fs2)
        (process_image_loop directory_path fs1 w oc d).1 oc d =
        ((process_image_loop directory_path fs2
            (process_image_loop directory_path fs1 w oc d).1 oc d).1,
         (processOneFile directory_path f
             (process_image_loop directory_path fs1 w oc d).1 (oc f) d).2 ++
           (process_image_loop directory_path fs2
             (process_image_loop directory_path fs1 w oc d).1 oc d).2) := by
      show (let r1 := processOneFile directory_path f
              (process_image_loop directory_path fs1 w oc d).1 (oc f) d
            let r2 := process_image_loop directory_path fs2 r1.1 oc d
            (r2.1, r1.2 ++ r2.2)) = _
      rcases hstep (process_image_loop directory_path fs1 w oc d).1 with h | h <;>
        rw [h]
    rw [hmid]
  · intro p hp
    have hploop : p ∈ (process_image_loop directory_path (fs1 ++ f :: fs2) w oc d).1 := hp
    constructor
    · simp only [process_image, List.mem_append]
      right
      exact List.mem_map.mpr ⟨p, hploop, rfl⟩
    · intro hdel
      simp only [process_image, List.mem_append] at hdel
      rcases hdel with hdel | hdel
      · exact process_image_loop_no_delete_of_final_mem hn p hploop hdel
      · obtain ⟨p', _, hpe⟩ := List.mem_map.mp hdel
        exact absurd hpe (by simp)

/-- Witness for C5: the file `d/a.jpeg` fails with a JSON decode error in a
batch also containing `d/b.jpeg`, with one tracked legacy file `d/b.webp`. -/
theorem C5_failures_are_local_and_residuals_reported_witness :
    processOneFile "d" (PPath.mk "d/a.jpeg") [PPath.mk "d/b.webp"]
        ParseOutcome.jsonError "_" =
      ([PPath.mk "d/b.webp"],
       [Event.classifierCalled "d/a.jpeg", Event.errJsonDecode "d/a.jpeg"]) ∨
    processOneFile "d" (PPath.mk "d/a.jpeg") [PPath.mk "d/b.webp"]
        ParseOutcome.jsonError "_" =
      ([PPath.mk "d/b.webp"],
       [Event.classifierCalled "d/a.jpeg", Event.errProcessing "d/a.jpeg"]) :=
  (C5_failures_are_local_and_residuals_reported "d" (PPath.mk "d/a.jpeg") []
    [PPath.mk "d/b.jpeg"] [PPath.mk "d/b.webp"]
    (fun p => if p.path = "d/a.jpeg" then ParseOutcome.jsonError
      else ParseOutcome.parsed ⟨["dog"]⟩) "_"
    (by decide) (Or.inl (by decide)) (by decide)).1

/-- C6: a delimiter outside the accepted set is rejected at the CLI boundary:
the command returns `BadParameter` with an empty event trace, so no
filesystem access happens and the filename builder is never invoked. -/
theorem C6_invalid_delimiter_rejected_early (decodes : String → Bool)
    (oc : PPath → ParseOutcome) (directory_path : String)
    (entries : List DirEntry) (d : String) (hd : d ∉ ["_", "-", " "]) :
    process_dir decodes oc directory_path entries d =
      (CliResult.badParam "Delimiter must be underscore, dash, or space.", []) := by
  unfold process_dir
  rw [if_pos hd]

/-- Witness for C6 at the delimiter `"x"`. -/
theorem C6_invalid_delimiter_rejected_early_witness :
    process_dir (fun _ => true) (fun _ => ParseOutcome.jsonError) "dir"
        [DirEntry.mk "a.webp" true] "x" =
      (CliResult.badParam "Delimiter must be underscore, dash, or space.", []) :=
  C6_invalid_delimiter_rejected_early (fun _ => true)
    (fun _ => ParseOutcome.jsonError) "dir" [DirEntry.mk "a.webp" true] "x"
    (by decide)

theorem convert_files_loop_events_nil_of_empty {decodes : String → Bool}
    {directory_path : String} {entries : List DirEntry}
    (h : (convert_files_loop decodes directory_path entries).1 = []) :
    (convert_files_loop decodes directory_path entries).2 = [] := by
  induction entries with
  | nil => rfl
  | cons e rest ih =>
    by_cases hc : (e.isFile && (pyLower (pathSuffix e.name) == ".webp")) = true
    · rw [convert_files_loop, if_pos hc] at h
      exact absurd h (by simp)
    · rw [convert_files_loop, if_neg hc] at h ⊢
      exact ih h

/-- C8: when format conversion yields zero files to classify (in particular
when the directory holds no `.webp` files), the command stops right after
logging: the trace holds only the glob, the directory scan, the two counts
and the nothing-to-process warning — no classifier call, no file creation, no
rename and no delete happen. -/
theorem C8_zero_converted_early_exit (decodes : String → Bool)
    (oc : PPath → ParseOutcome) (directory_path : String)
    (entries : List DirEntry) (d : String)
    (hd : d ∈ ["_", "-", " "])
    (h : (convert_files_to_jpeg decodes directory_path entries).1 = []) :
    process_dir decodes oc directory_path entries d =
      (CliResult.done,
       [Event.dirGlob "*.webp",
        Event.infoFound (webpGlob directory_path entries).length,
        Event.dirIter, Event.infoConverted 0, Event.warnNothingToProcess]) := by
  have h1 : (convert_files_loop decodes directory_path entries).1 = [] := h
  have h2 := convert_files_loop_events_nil_of_empty h1
  unfold process_dir
  rw [if_neg (fun hna => hna hd)]
  simp only [convert_files_to_jpeg, h1, h2]
  rfl

/-- Witness for C8: a directory whose only entry is `a.txt`. -/
theorem C8_zero_converted_early_exit_witness :
    process_dir (fun _ => true) (fun _ => ParseOutcome.jsonError) "dir"
        [DirEntry.mk "a.txt" true] "_" =
      (CliResult.done,
       [Event.dirGlob "*.webp",
        Event.infoFound (webpGlob "dir" [DirEntry.mk "a.txt" true]).length,
        Event.dirIter, Event.infoConverted 0, Event.warnNothingToProcess]) :=
  C8_zero_converted_early_exit (fun _ => true) (fun _ => ParseOutcome.jsonError)
    "dir" [DirEntry.mk "a.txt" true] "_" (by decide) (by decide)

/-- C9: format normalization acts only on regular files whose suffix,
lowercased, is `.webp`.  (1) Running it on any directory listing equals
running it on the listing restricted to such files — every other entry is
ignored entirely, contributing neither output-list elements nor side effects.
(2) Hence on a directory with no such file (for example after a successful
previous conversion, where only `.jpeg` counterparts remain) it converts
nothing: it returns the empty list and its only action is the directory
scan. -/
theorem C9_normalization_ignores_non_webp (decodes : String → Bool)
    (directory_path : String) (entries : List DirEntry) :
    convert_files_to_jpeg decodes directory_path entries =
      convert_files_to_jpeg decodes directory_path
        (entries.filter
          (fun e => e.isFile && (pyLower (pathSuffix e.name) == ".webp"))) ∧
    ((∀ e ∈ entries, e.isFile = true → pyLower (pathSuffix e.name) ≠ ".webp") →
      convert_files_to_jpeg decodes directory_path entries =
        ([], [Event.dirIter])) := by
  have hloop : ∀ l : List DirEntry,
      convert_files_loop decodes directory_path l =
        convert_files_loop decodes directory_path
          (l.filter (fun e => e.isFile && (pyLower (pathSuffix e.name) == ".webp"))) := by
    intro l
    induction l with
    | nil => rfl
    | cons e rest ih =>
      simp only [List.filter_cons]
      by_cases hc : (e.isFile && (pyLower (pathSuffix e.name) == ".webp")) = true
      · rw [if_pos hc, convert_files_loop, if_pos hc, convert_files_loop,
          if_pos hc, ih]
      · rw [if_neg hc, convert_files_loop, if_neg hc]
        exact ih
  constructor
  · show (_, _) = (_, _)
    rw [hloop entries]
  · intro hnone
    have hfilter : entries.filter
        (fun e => e.isFile && (pyLower (pathSuffix e.name) == ".webp")) = [] := by
      rw [List.filter_eq_nil_iff]
      intro e he
      intro hc
      rcases Bool.and_eq_true_iff.mp hc with ⟨h1, h2⟩
      exact hnone e he h1 (by simpa using h2)
    show (_, _) = (_, _)
    rw [hloop entries, hfilter]
    rfl

/-- Witness for part (2) of C9: a directory whose only entry is the converted
file `x.jpeg`. -/
theorem C9_normalization_ignores_non_webp_witness :
    convert_files_to_jpeg (fun _ => true) "dir" [DirEntry.mk "x.jpeg" true] =
      ([], [Event.dirIter]) :=
  (C9_normalization_ignores_non_webp (fun _ => true) "dir"
    [DirEntry.mk "x.jpeg" true]).2 (by decide)

theorem lastIdxOf_append_webp (l : List Char) :
    lastIdxOf '.' (l ++ ['.', 'w', 'e', 'b', 'p']) = (l.length : Int) := by
  induction l with
  | nil => rfl
  | cons a tl ih =>
    simp only [List.cons_append, lastIdxOf, List.append_eq, ih]
    rw [if_pos (Int.natCast_nonneg tl.length)]
    simp only [List.length_cons]
    push_cast
    ring

theorem pathSuffix_of_data_webp {nm : String} {l : List Char} (hl : l ≠ [])
    (hdata : nm.data = l ++ ['.', 'w', 'e', 'b', 'p']) :
    pathSuffix nm = ".webp" := by
  have hidx : lastIdxOf '.' nm.data = (l.length : Int) := by
    rw [hdata]; exact lastIdxOf_append_webp l
  have hlen : nm.data.length = l.length + 5 := by rw [hdata]; simp
  have hcond : 0 < lastIdxOf '.' nm.data ∧
      lastIdxOf '.' nm.data < (nm.data.length : Int) - 1 := by
    rw [hidx, hlen]
    have hpos : 0 < l.length := List.length_pos.mpr hl
    constructor
    · exact_mod_cast hpos
    · push_cast; omega
  simp only [pathSuffix]
  rw [if_pos hcond, hidx, Int.toNat_natCast, hdata, List.drop_left]

theorem globMatchesWebp_eq_false_of_suffix_ne {nm : String}
    (hne : pathSuffix nm ≠ ".webp") : globMatchesWebp nm = false := by
  rw [globMatchesWebp, decide_eq_false_iff_not]
  rintro ⟨hhead, t, ht⟩
  have ht' : nm.data = t ++ ['.', 'w', 'e', 'b', 'p'] := by rw [← ht]
  have htn : t ≠ [] := by
    rintro rfl
    rw [ht'] at hhead
    exact hhead rfl
  exact hne (pathSuffix_of_data_webp htn ht')

theorem pathSuffix_structure {nm : String}
    (h : pyLower (pathSuffix nm) = ".webp") :
    ∃ i : Nat, 0 < i ∧ nm.data.length = i + 5 ∧
      pathSuffix nm = String.mk (nm.data.drop i) ∧
      (nm.data.drop i).map Char.toLower = ['.', 'w', 'e', 'b', 'p'] := by
  by_cases hcond : 0 < lastIdxOf '.' nm.data ∧
      lastIdxOf '.' nm.data < (nm.data.length : Int) - 1
  · have hps : pathSuffix nm =
        String.mk (nm.data.drop (lastIdxOf '.' nm.data).toNat) := by
      simp only [pathSuffix]
      rw [if_pos hcond]
    rw [hps] at h
    have hmap : (nm.data.drop (lastIdxOf '.' nm.data).toNat).map Char.toLower =
        ['.', 'w', 'e', 'b', 'p'] := congrArg String.data h
    refine ⟨(lastIdxOf '.' nm.data).toNat, ?_, ?_, hps, hmap⟩
    · omega
    · have hml := congrArg List.length hmap
      rw [List.length_map, List.length_drop] at hml
      simp only [List.length_cons, List.length_nil] at hml
      omega
  · exfalso
    have hps : pathSuffix nm = "" := by
      simp only [pathSuffix]
      rw [if_neg hcond]
    rw [hps] at h
    exact absurd h (by decide)

theorem pyEndswith_lower_webp {directory_path nm : String}
    (hlow : pyLower (pathSuffix nm) = ".webp") :
    pyEndswith (pyLower (directory_path ++ "/" ++ nm)) ".webp" = true := by
  obtain ⟨i, _, _, _, hmap⟩ := pathSuffix_structure hlow
  rw [pyEndswith, decide_eq_true_eq]
  show ".webp".data <:+ ((directory_path ++ "/" ++ nm).data.map Char.toLower)
  refine ⟨((directory_path ++ "/").data ++ nm.data.take i).map Char.toLower, ?_⟩
  have hfull : (directory_path ++ "/" ++ nm).data =
      ((directory_path ++ "/").data ++ nm.data.take i) ++ nm.data.drop i := by
    rw [String.data_append, List.append_assoc, List.take_append_drop]
  rw [hfull]
  simp only [List.map_append]
  rw [hmap]

theorem convert_files_loop_mem {decodes : String → Bool}
    {directory_path : String} {entries : List DirEntry} {e : DirEntry}
    (he : e ∈ entries)
    (hc : (e.isFile && (pyLower (pathSuffix e.name) == ".webp")) = true) :
    PPath.mk (convert_webp_to_jpeg decodes (directory_path ++ "/" ++ e.name)).1 ∈
      (convert_files_loop decodes directory_path entries).1 ∧
    ∀ ev ∈ (convert_webp_to_jpeg decodes (directory_path ++ "/" ++ e.name)).2,
      ev ∈ (convert_files_loop decodes directory_path entries).2 := by
  induction entries with
  | nil => cases he
  | cons a rest ih =>
    rcases List.mem_cons.mp he with rfl | hmem
    · rw [convert_files_loop, if_pos hc]
      exact ⟨List.mem_cons_self _ _,
        fun ev hev => List.mem_append_left _ hev⟩
    · by_cases ha : (a.isFile && (pyLower (pathSuffix a.name) == ".webp")) = true
      · rw [convert_files_loop, if_pos ha]
        obtain ⟨h1, h2⟩ := ih hmem
        exact ⟨List.mem_cons_of_mem _ h1,
          fun ev hev => List.mem_append_right _ (h2 ev hev)⟩
      · rw [convert_files_loop, if_neg ha]
        exact ih hmem

theorem webpGlob_path_ne {directory_path : String} {entries : List DirEntry}
    {nm : String} (hg : globMatchesWebp nm = false) :
    ∀ w ∈ webpGlob directory_path entries,
      w.path ≠ directory_path ++ "/" ++ nm := by
  intro w hw heq
  simp only [webpGlob, List.mem_map, List.mem_filter] at hw
  obtain ⟨a, ⟨_, hga⟩, rfl⟩ := hw
  have hdata := congrArg String.data heq
  rw [String.data_append, String.data_append] at hdata
  have hnames : a.name = nm := String.ext (List.append_cancel_left hdata)
  rw [hnames, hg] at hga
  exact absurd hga (by simp)

theorem process_image_untracked_path {directory_path : String}
    {files W : List PPath} {oc : PPath → ParseOutcome} {d q : String}
    (h : ∀ w ∈ W, w.path ≠ q) :
    Event.deleted q ∉ (process_image directory_path files W oc d).2 ∧
    Event.warnUnprocessed q ∉ (process_image directory_path files W oc d).2 := by
  constructor
  · intro hmem
    simp only [process_image, List.mem_append] at hmem
    rcases hmem with hmem | hmem
    · obtain ⟨w0, hw0, hq⟩ := process_image_loop_deleted_spec hmem
      exact h w0 hw0 hq
    · obtain ⟨p, _, hpe⟩ := List.mem_map.mp hmem
      exact absurd hpe (by simp)
  · intro hmem
    simp only [process_image, List.mem_append] at hmem
    rcases hmem with hmem | hmem
    · exact process_image_loop_no_warnUnprocessed directory_path files W oc d q hmem
    · obtain ⟨p, hp, hpe⟩ := List.mem_map.mp hmem
      have hpW : p ∈ W :=
        (process_image_loop_webp_sublist directory_path files W oc d).subset hp
      simp only [Event.warnUnprocessed.injEq] at hpe
      exact h p hpW hpe

/-- C10: a file whose extension equals `.webp` only case-insensitively (for
example `photo.WEBP`) is converted by the normalizer — the extension test
lowercases the suffix — while the case-sensitive glob `*.webp` never matches
it, so the tracked legacy list never contains its path; consequently the
processing stage never deletes that original file and never reports it in the
end-of-batch unprocessed warnings. -/
theorem C10_uppercase_extension_escapes_tracking (directory_path : String)
    (e : DirEntry) (entries : List DirEntry) (decodes : String → Bool)
    (oc : PPath → ParseOutcome) (files : List PPath) (d : String)
    (he : e ∈ entries) (hf : e.isFile = true)
    (hlow : pyLower (pathSuffix e.name) = ".webp")
    (hne : pathSuffix e.name ≠ ".webp")
    (hdec : decodes (directory_path ++ "/" ++ e.name) = true) :
    (PPath.mk (splitextBase (directory_path ++ "/" ++ e.name) ++ ".jpeg") ∈
        (convert_files_to_jpeg decodes directory_path entries).1 ∧
     Event.fileCreated (splitextBase (directory_path ++ "/" ++ e.name) ++ ".jpeg") ∈
        (convert_files_to_jpeg decodes directory_path entries).2) ∧
    globMatchesWebp e.name = false ∧
    (∀ w ∈ webpGlob directory_path entries,
      w.path ≠ directory_path ++ "/" ++ e.name) ∧
    Event.deleted (directory_path ++ "/" ++ e.name) ∉
      (process_image directory_path files
        (webpGlob directory_path entries) oc d).2 ∧
    Event.warnUnprocessed (directory_path ++ "/" ++ e.name) ∉
      (process_image directory_path files
        (webpGlob directory_path entries) oc d).2 := by
  have hg : globMatchesWebp e.name = false :=
    globMatchesWebp_eq_false_of_suffix_ne hne
  have hnp : ∀ w ∈ webpGlob directory_path entries,
      w.path ≠ directory_path ++ "/" ++ e.name := webpGlob_path_ne hg
  have huntracked := @process_image_untracked_path directory_path files
    (webpGlob directory_path entries) oc d (directory_path ++ "/" ++ e.name) hnp
  have hconv : convert_webp_to_jpeg decodes (directory_path ++ "/" ++ e.name) =
      (splitextBase (directory_path ++ "/" ++ e.name) ++ ".jpeg",
       [Event.fileOpened (directory_path ++ "/" ++ e.name),
        Event.fileCreated
          (splitextBase (directory_path ++ "/" ++ e.name) ++ ".jpeg")]) := by
    simp only [convert_webp_to_jpeg, pyEndswith_lower_webp hlow, hdec]
    simp
  obtain ⟨h1, h2⟩ := convert_files_loop_mem he (by simp [hf, hlow])
  rw [hconv] at h1 h2
  refine ⟨⟨h1, ?_⟩, hg, hnp, huntracked.1, huntracked.2⟩
  exact List.mem_cons_of_mem _ (h2 _ (by simp))

/-- Witness for C10: directory `d` containing only `photo.WEBP`, which
decodes, with one converted file `d/photo.jpeg` in the processing batch. -/
theorem C10_uppercase_extension_escapes_tracking_witness :
    (PPath.mk (splitextBase ("d" ++ "/" ++ "photo.WEBP") ++ ".jpeg") ∈
        (convert_files_to_jpeg (fun _ => true) "d"
          [DirEntry.mk "photo.WEBP" true]).1 ∧
     Event.fileCreated (splitextBase ("d" ++ "/" ++ "photo.WEBP") ++ ".jpeg") ∈
        (convert_files_to_jpeg (fun _ => true) "d"
          [DirEntry.mk "photo.WEBP" true]).2) ∧
    globMatchesWebp "photo.WEBP" = false ∧
    (∀ w ∈ webpGlob "d" [DirEntry.mk "photo.WEBP" true],
      w.path ≠ "d" ++ "/" ++ "photo.WEBP") ∧
    Event.deleted ("d" ++ "/" ++ "photo.WEBP") ∉
      (process_image "d" [PPath.mk "d/photo.jpeg"]
        (webpGlob "d" [DirEntry.mk "photo.WEBP" true])
        (fun _ => ParseOutcome.parsed ⟨["cat"]⟩) "_").2 ∧
    Event.warnUnprocessed ("d" ++ "/" ++ "photo.WEBP") ∉
      (process_image "d" [PPath.mk "d/photo.jpeg"]
        (webpGlob "d" [DirEntry.mk "photo.WEBP" true])
        (fun _ => ParseOutcome.parsed ⟨["cat"]⟩) "_").2 :=
  C10_uppercase_extension_escapes_tracking "d" (DirEntry.mk "photo.WEBP" true)
    [DirEntry.mk "photo.WEBP" true] (fun _ => true)
    (fun _ => ParseOutcome.parsed ⟨["cat"]⟩) [PPath.mk "d/photo.jpeg"] "_"
    (by decide) (by decide) (by decide) (by decide) (by decide)
